import Mathlib

/-!
Shallow embedding of the backtesting engine in `strategy_lab/backtest.go`
(the core of the HiJohns/finance repository), together with theorems
checking the natural-language specification against it.

Conventions of the embedding:
* Go `float64` prices and returns are modelled as exact rationals `ℚ`;
  the square roots appearing in standard deviations are taken in `ℝ`.
* Go slices of `DailyData` become `List DailyData`; the Go map
  `map[string][]DailyData` (whose missing keys read as `nil`) becomes a
  total function `String → List DailyData`.
* `gonum`'s `stat.Correlation` is an external library routine; the engine
  never branches on the value it returns, so it is passed in as an
  abstract parameter `corrFn`.
* `sort.Slice` on fewer than 13 elements (here: at most the 5 pool
  tickers) runs the standard-library insertion sort, which is embedded
  verbatim as `goSortCorrelations`.
-/

/-- One row of the `daily_prices` table: mirrors Go `type DailyData struct`. -/
structure DailyData where
  Date : String
  Ticker : String
  Close : ℚ
deriving DecidableEq, Repr

instance : Inhabited DailyData := ⟨⟨"", "", 0⟩⟩

/-- One simulated trade: mirrors Go `type Trade struct`. -/
structure Trade where
  EntryDate : String
  ExitDate : String
  Ticker : String
  EntryPrice : ℚ
  ExitPrice : ℚ
  Return : ℚ
deriving DecidableEq, Repr

/-- Go constant `volatilityWindow = 20`. -/
def volatilityWindow : ℕ := 20

/-- Go constant `correlationWindow = 30`. -/
def correlationWindow : ℕ := 30

/-- Go constant `holdingPeriod = 5`. -/
def holdingPeriod : ℕ := 5

/-- Go constant `triggerThreshold = 1.5`. -/
def triggerThreshold : ℚ := 3 / 2

/-- Go constant `frictionCost = 0.0015`. -/
def frictionCost : ℚ := 15 / 10000

/-- Go constant `numAssetsToPick = 3`. -/
def numAssetsToPick : ℕ := 3

/-- Go constant `benchmarkTicker`. -/
def benchmarkTicker : String := "DX-Y.NYB"

/-- Go variable `assetPool`. -/
def assetPool : List String :=
  ["600406.SS", "002028.SZ", "002270.SZ", "688676.SS", "159326.SZ"]

/-- Go `getDailyReturns`: walks the price list pairwise; entry `i` of the
result is `close(i+1)/close(i) - 1`, or `0` when `close(i)` is zero. -/
def getDailyReturns : List DailyData → List ℚ
  | [] => []
  | [_] => []
  | a :: b :: rest =>
      (if a.Close ≠ 0 then b.Close / a.Close - 1 else 0) :: getDailyReturns (b :: rest)

/-- Go `findDateIndex`: index of the first row carrying `date`, `-1` when
absent. -/
def findDateIndex (data : List DailyData) (date : String) : Int :=
  match data.findIdx? (fun d => d.Date = date) with
  | some i => (i : Int)
  | none => -1

/-- Go `getPriceSlice`: the sub-slice `data[startIdx : endIdx+1]` when both
dates are found in order, `nil` (here `[]`) otherwise. -/
def getPriceSlice (data : List DailyData) (startDate endDate : String) : List DailyData :=
  let startIdx := findDateIndex data startDate
  let endIdx := findDateIndex data endDate
  if startIdx ≠ -1 ∧ endIdx ≠ -1 ∧ startIdx ≤ endIdx then
    (data.drop startIdx.toNat).take (endIdx.toNat + 1 - startIdx.toNat)
  else []

/-- Arithmetic mean, as computed by `gonum`'s `stat.Mean` (exact arithmetic). -/
def listMean (xs : List ℚ) : ℚ := xs.sum / (xs.length : ℚ)

/-- Sample variance with `n-1` normalisation, the quantity whose square root
`gonum`'s `stat.StdDev` returns (exact arithmetic). -/
def sampleVariance (xs : List ℚ) : ℚ :=
  (xs.map (fun x => (x - listMean xs) ^ 2)).sum / ((xs.length : ℚ) - 1)

theorem sampleVariance_nonneg (xs : List ℚ) : 0 ≤ sampleVariance xs := by
  cases xs with
  | nil => simp [sampleVariance]
  | cons a l =>
      apply div_nonneg
      · apply List.sum_nonneg
        intro x hx
        simp only [List.mem_map] at hx
        obtain ⟨y, -, rfl⟩ := hx
        positivity
      · have : (1 : ℚ) ≤ ((a :: l).length : ℚ) := by
          exact_mod_cast Nat.succ_le_of_lt (Nat.succ_pos l.length)
        linarith

/-- The window `benchmarkReturns[i-volatilityWindow : i]` sliced in the Go
trigger loop (the loop only evaluates it for `volatilityWindow ≤ i`). -/
def volWindowSlice (rs : List ℚ) (i : ℕ) : List ℚ :=
  (rs.drop (i - volatilityWindow)).take volatilityWindow

/-- The Go trigger test `benchmarkReturns[i] > triggerThreshold*volatility`,
where `volatility = stat.StdDev(pastReturns, nil)` is the sample standard
deviation (a real square root) of the trailing window. -/
def triggerCond (rs : List ℚ) (i : ℕ) : Prop :=
  (triggerThreshold : ℝ) * Real.sqrt (sampleVariance (volWindowSlice rs i)) <
    ((rs.getD i 0 : ℚ) : ℝ)

theorem mul_sqrt_lt_iff {c v r : ℝ} (hc : 0 < c) (hv : 0 ≤ v) :
    c * Real.sqrt v < r ↔ 0 < r ∧ c ^ 2 * v < r ^ 2 := by
  constructor
  · intro h
    have h0 : 0 ≤ c * Real.sqrt v := mul_nonneg hc.le (Real.sqrt_nonneg v)
    have hr : 0 < r := lt_of_le_of_lt h0 h
    refine ⟨hr, ?_⟩
    have hsq : (c * Real.sqrt v) * (c * Real.sqrt v) < r * r :=
      mul_self_lt_mul_self h0 h
    calc c ^ 2 * v = (c * Real.sqrt v) * (c * Real.sqrt v) := by
          rw [mul_mul_mul_comm, Real.mul_self_sqrt hv]; ring
      _ < r * r := hsq
      _ = r ^ 2 := by ring
  · rintro ⟨hr, hsq⟩
    have key : c * Real.sqrt v = Real.sqrt (c ^ 2 * v) := by
      rw [Real.sqrt_mul (by positivity), Real.sqrt_sq hc.le]
    rw [key]
    calc Real.sqrt (c ^ 2 * v) < Real.sqrt (r ^ 2) :=
          Real.sqrt_lt_sqrt (by positivity) hsq
      _ = r := Real.sqrt_sq hr.le

theorem triggerCond_iff (rs : List ℚ) (i : ℕ) :
    triggerCond rs i ↔
      0 < rs.getD i 0 ∧
        triggerThreshold ^ 2 * sampleVariance (volWindowSlice rs i) < (rs.getD i 0) ^ 2 := by
  unfold triggerCond
  rw [mul_sqrt_lt_iff (by norm_num [triggerThreshold])
    (by exact_mod_cast sampleVariance_nonneg (volWindowSlice rs i))]
  constructor
  · rintro ⟨h1, h2⟩
    exact ⟨by exact_mod_cast h1, by exact_mod_cast h2⟩
  · rintro ⟨h1, h2⟩
    exact ⟨by exact_mod_cast h1, by exact_mod_cast h2⟩

instance (rs : List ℚ) (i : ℕ) : Decidable (triggerCond rs i) :=
  decidable_of_iff _ (triggerCond_iff rs i).symm

/-- The indices visited by the Go loop
`for i := volatilityWindow; i < len(benchmarkReturns); i++` at which the
trigger condition holds. -/
def triggerIndices (rs : List ℚ) : List ℕ :=
  (List.range' volatilityWindow (rs.length - volatilityWindow)).filter
    (fun i => decide (triggerCond rs i))

/-- Go `type CorrelationData struct`. -/
structure CorrelationData where
  ticker : String
  value : ℚ
deriving DecidableEq, Repr

/-- Go `calculateCorrelations`, with `gonum`'s `stat.Correlation` passed in
abstractly as `corrFn` (the engine never branches on the returned value). -/
def calculateCorrelations (corrFn : List ℚ → List ℚ → ℚ) (triggerDate : String)
    (dataByTicker : String → List DailyData) (benchmarkData : List DailyData) :
    List CorrelationData :=
  let triggerIdx := findDateIndex benchmarkData triggerDate
  if triggerIdx < (correlationWindow : Int) then []
  else
    let corrStartDate :=
      (benchmarkData.getD (triggerIdx.toNat - correlationWindow) default).Date
    let benchmarkSlice := getPriceSlice benchmarkData corrStartDate triggerDate
    let benchmarkReturns := getDailyReturns benchmarkSlice
    assetPool.filterMap (fun ticker =>
      let assetData := dataByTicker ticker
      let assetSlice := getPriceSlice assetData corrStartDate triggerDate
      if assetSlice.length < correlationWindow then none
      else
        let assetReturns := getDailyReturns assetSlice
        if assetReturns.length = benchmarkReturns.length then
          some ⟨ticker, corrFn assetReturns benchmarkReturns⟩
        else none)

/-- One step of the insertion sort that Go's `sort.Slice` performs on short
slices: sink the new element left past strictly greater values (comparator
`correlations[j].value < correlations[k].value`). -/
def goInsert (x : CorrelationData) : List CorrelationData → List CorrelationData
  | [] => [x]
  | y :: ys => if x.value < y.value then x :: y :: ys else y :: goInsert x ys

/-- The accumulating loop of the insertion sort: element `i` is inserted into
the already-sorted prefix `acc`. -/
def goSortAux (acc : List CorrelationData) : List CorrelationData → List CorrelationData
  | [] => acc
  | x :: xs => goSortAux (goInsert x acc) xs

/-- `sort.Slice(correlations, ...)` as executed on the at-most-5-element
correlation list: the standard library's insertion sort for short slices. -/
def goSortCorrelations (l : List CorrelationData) : List CorrelationData :=
  goSortAux [] l

/-- The body of the Go `--- Execution ---` loop for one picked ticker:
`findDateIndex` for the trigger date, entry at that index, exit after
`holdingPeriod` rows, trade emitted only when the exit index is in range. -/
def simulateTrade (dataByTicker : String → List DailyData) (triggerDate : String)
    (pickedTicker : String) : Option Trade :=
  let assetData := dataByTicker pickedTicker
  let entryIdx := findDateIndex assetData triggerDate
  if entryIdx = -1 then none
  else
    let exitIdx := entryIdx.toNat + holdingPeriod
    if exitIdx < assetData.length then
      let entryPrice := (assetData.getD entryIdx.toNat default).Close
      let exitPrice := (assetData.getD exitIdx default).Close
      some { EntryDate := triggerDate
             ExitDate := (assetData.getD exitIdx default).Date
             Ticker := pickedTicker
             EntryPrice := entryPrice
             ExitPrice := exitPrice
             Return := (exitPrice / entryPrice - 1) - frictionCost }
    else none

/-- The trades recorded for one trigger date: the sorted correlation list is
truncated to `numAssetsToPick` entries (`k < numAssetsToPick && k < len`),
and each pick that survives the entry/exit checks contributes one trade. -/
def tradesForTrigger (dataByTicker : String → List DailyData) (triggerDate : String)
    (picks : List CorrelationData) : List Trade :=
  picks.filterMap (fun cd => simulateTrade dataByTicker triggerDate cd.ticker)

/-- Go `runBacktest`: scan the benchmark return series for triggers, rank the
pool by correlation at each trigger date (the date of the *price* at index
`i+1`), and simulate trades in the lowest-correlation picks. -/
def runBacktest (corrFn : List ℚ → List ℚ → ℚ)
    (dataByTicker : String → List DailyData) : List Trade :=
  let benchmarkData := dataByTicker benchmarkTicker
  let benchmarkReturns := getDailyReturns benchmarkData
  (triggerIndices benchmarkReturns).flatMap (fun i =>
    let triggerDate := (benchmarkData.getD (i + 1) default).Date
    let correlations := calculateCorrelations corrFn triggerDate dataByTicker benchmarkData
    tradesForTrigger dataByTicker triggerDate
      ((goSortCorrelations correlations).take numAssetsToPick))

open Classical in
/-- Go `calculateSharpeRatio`: `0` for fewer than two trades, `0` when the
sample standard deviation is zero, otherwise `mean/stdDev * math.Sqrt(252)`.
Marked noncomputable only because of the real square roots. -/
noncomputable def calculateSharpeRatio (returns : List ℚ) : ℝ :=
  if returns.length < 2 then 0
  else
    let mean : ℝ := (listMean returns : ℚ)
    let stdDev : ℝ := Real.sqrt (sampleVariance returns)
    if stdDev = 0 then 0 else mean / stdDev * Real.sqrt 252

/-- One iteration of the Go `calculateMaxDrawdown` loop, on the state
`(peak, maxDrawdown, portfolioValue)`. -/
def drawdownStep : ℚ × ℚ × ℚ → ℚ → ℚ × ℚ × ℚ
  | (peak, maxDD, value), r =>
    let value' := value * (1 + r)
    let peak' := if value' > peak then value' else peak
    let dd := (peak' - value') / peak'
    (peak', if dd > maxDD then dd else maxDD, value')

/-- Go `calculateMaxDrawdown`: compound the returns from value 1, track the
running peak and the largest relative drop, report it negated. -/
def calculateMaxDrawdown (returns : List ℚ) : ℚ :=
  -(returns.foldl drawdownStep (1, 0, 1)).2.1

theorem getDailyReturns_length : ∀ data : List DailyData,
    (getDailyReturns data).length = data.length - 1
  | [] => rfl
  | [_] => rfl
  | a :: b :: rest => by
      have ih := getDailyReturns_length (b :: rest)
      simp only [getDailyReturns, List.length_cons] at ih ⊢
      omega

theorem getDailyReturns_getD : ∀ (data : List DailyData) (i : ℕ), i + 1 < data.length →
    (getDailyReturns data).getD i 0 =
      if (data.getD i default).Close ≠ 0 then
        (data.getD (i + 1) default).Close / (data.getD i default).Close - 1
      else 0
  | [], i, h => by simp at h
  | [_], i, h => by simp at h
  | a :: b :: rest, 0, _ => by simp [getDailyReturns]
  | a :: b :: rest, i + 1, h => by
      have ih := getDailyReturns_getD (b :: rest) i (by simpa using Nat.lt_of_succ_lt_succ h)
      simpa [getDailyReturns] using ih

/-- C2: the return series has length `n-1` and entry `i` is
`close(i+1)/close(i) - 1`, with `0` substituted when `close(i)` is zero. -/
theorem returns_builder_correct (data : List DailyData) :
    (getDailyReturns data).length = data.length - 1
    ∧ ∀ i : ℕ, i + 1 < data.length →
        (getDailyReturns data).getD i 0 =
          if (data.getD i default).Close ≠ 0 then
            (data.getD (i + 1) default).Close / (data.getD i default).Close - 1
          else 0 :=
  ⟨getDailyReturns_length data, fun i h => getDailyReturns_getD data i h⟩

/-- C2 witness: a concrete three-point series, one step with a zero close. -/
theorem returns_builder_correct_witness :
    (0 : ℕ) + 1 < ([⟨"a", "T", 4⟩, ⟨"b", "T", 6⟩, ⟨"c", "T", 0⟩] : List DailyData).length
    ∧ (getDailyReturns [⟨"a", "T", 4⟩, ⟨"b", "T", 6⟩, ⟨"c", "T", 0⟩]).getD 0 0 =
        if ((([⟨"a", "T", 4⟩, ⟨"b", "T", 6⟩, ⟨"c", "T", 0⟩] : List DailyData).getD 0 default).Close ≠ 0) then
          (([⟨"a", "T", 4⟩, ⟨"b", "T", 6⟩, ⟨"c", "T", 0⟩] : List DailyData).getD 1 default).Close /
            (([⟨"a", "T", 4⟩, ⟨"b", "T", 6⟩, ⟨"c", "T", 0⟩] : List DailyData).getD 0 default).Close - 1
        else 0 :=
  ⟨by decide, (returns_builder_correct [⟨"a", "T", 4⟩, ⟨"b", "T", 6⟩, ⟨"c", "T", 0⟩]).2 0 (by decide)⟩

/-- C10: inside the trigger loop the benchmark *price* index `i+1` is in
bounds, because the return series is exactly one element shorter. -/
theorem trigger_date_index_in_bounds (data : List DailyData) (i : ℕ) (hne : data ≠ [])
    (_h1 : volatilityWindow ≤ i) (h2 : i < (getDailyReturns data).length) :
    i + 1 < data.length ∧ (getDailyReturns data).length + 1 = data.length := by
  have hlen := getDailyReturns_length data
  have hzero : data.length ≠ 0 := fun h => hne (List.eq_nil_of_length_eq_zero h)
  omega

/-- Concrete benchmark series for the witnesses: 32 days, flat at 1 with a
single jump to 2 on the last day, so exactly one trigger fires (at return
index 30) and its trigger date is the day-31 date string. -/
def sampleBench : List DailyData :=
  (List.range 32).map (fun n => ⟨Nat.repr n, benchmarkTicker, if n = 31 then 2 else 1⟩)

/-- C10 witness: the concrete benchmark at loop index 30. -/
theorem trigger_date_index_in_bounds_witness :
    30 + 1 < sampleBench.length ∧ (getDailyReturns sampleBench).length + 1 = sampleBench.length :=
  trigger_date_index_in_bounds sampleBench 30 (by decide) (by decide) (by decide)

theorem ite_gt_nonneg (d m : ℚ) (hm : 0 ≤ m) : 0 ≤ if d > m then d else m := by
  split
  · next h => exact le_of_lt (lt_of_le_of_lt hm h)
  · exact hm

theorem drawdown_foldl_nonneg : ∀ (l : List ℚ) (s : ℚ × ℚ × ℚ), 0 ≤ s.2.1 →
    0 ≤ (l.foldl drawdownStep s).2.1
  | [], _, hm => hm
  | r :: rest, s, hm => by
      simp only [List.foldl_cons]
      refine drawdown_foldl_nonneg rest (drawdownStep s r) ?_
      obtain ⟨p, m, v⟩ := s
      simp only [drawdownStep]
      exact ite_gt_nonneg _ m hm

theorem drawdown_foldl_all_pos : ∀ (l : List ℚ) (v : ℚ), 0 < v → (∀ r ∈ l, 0 < r) →
    (l.foldl drawdownStep (v, 0, v)).2.1 = 0
  | [], _, _, _ => rfl
  | r :: rest, v, hv, hpos => by
      have hr : 0 < r := hpos r (List.mem_cons_self r rest)
      have hgrow : v < v * (1 + r) := by nlinarith
      have hstep : drawdownStep (v, 0, v) r = (v * (1 + r), 0, v * (1 + r)) := by
        simp only [drawdownStep, if_pos hgrow]
        norm_num
      simp only [List.foldl_cons, hstep]
      exact drawdown_foldl_all_pos rest (v * (1 + r)) (lt_trans hv hgrow)
        (fun x hx => hpos x (List.mem_cons_of_mem r hx))

/-- C8: the reported max drawdown is never positive, and an all-positive
trade-return sequence reports a drawdown of exactly 0. -/
theorem max_drawdown_correct (returns : List ℚ) :
    calculateMaxDrawdown returns ≤ 0
    ∧ ((∀ r ∈ returns, 0 < r) → calculateMaxDrawdown returns = 0) := by
  constructor
  · have := drawdown_foldl_nonneg returns (1, 0, 1) (le_refl 0)
    unfold calculateMaxDrawdown
    linarith
  · intro hpos
    unfold calculateMaxDrawdown
    rw [drawdown_foldl_all_pos returns 1 one_pos hpos]
    norm_num

/-- C8 witness: an all-positive concrete return sequence. -/
theorem max_drawdown_correct_witness :
    calculateMaxDrawdown [1/10, 2/10, 3/100] = 0 :=
  (max_drawdown_correct [1/10, 2/10, 3/100]).2
    (of_decide_eq_true (by with_unfolding_all rfl))

/-- C7: the risk-adjusted return is `0` for fewer than two trades or zero
standard deviation, and `(mean/stddev)·√252` otherwise, with the sample
`n-1` standard deviation. -/
theorem sharpe_guards (rs : List ℚ) :
    (rs.length < 2 ∨ Real.sqrt (sampleVariance rs) = 0 → calculateSharpeRatio rs = 0)
    ∧ (2 ≤ rs.length → Real.sqrt (sampleVariance rs) ≠ 0 →
        calculateSharpeRatio rs =
          ((listMean rs : ℚ) : ℝ) / Real.sqrt (sampleVariance rs) * Real.sqrt 252) := by
  constructor
  · rintro (h | h) <;> simp only [calculateSharpeRatio] <;> split_ifs <;> rfl
  · intro h1 h2
    simp only [calculateSharpeRatio, if_neg (show ¬ rs.length < 2 by omega), if_neg h2]

/-- C7 witness: the empty trade list, and a two-trade list with nonzero
variance. -/
theorem sharpe_guards_witness :
    calculateSharpeRatio [] = 0
    ∧ calculateSharpeRatio [1, 2] =
        ((listMean [1, 2] : ℚ) : ℝ) / Real.sqrt (sampleVariance [1, 2]) * Real.sqrt 252 :=
  ⟨(sharpe_guards []).1 (Or.inl (by decide)),
   (sharpe_guards [1, 2]).2 (by decide) (by
      rw [Real.sqrt_ne_zero']
      have h : (0 : ℚ) < sampleVariance [1, 2] := of_decide_eq_true (by with_unfolding_all rfl)
      exact_mod_cast h)⟩

theorem simulateTrade_some_return (dbt : String → List DailyData) (d tick : String) (t : Trade)
    (h : simulateTrade dbt d tick = some t) :
    t.Return = (t.ExitPrice / t.EntryPrice - 1) - frictionCost := by
  simp only [simulateTrade] at h
  split_ifs at h
  rw [Option.some_inj] at h
  subst h
  rfl

/-- C5: every trade the backtest records carries
`(exit/entry - 1) - frictionCost` as its return, friction charged once. -/
theorem trade_return_formula (corrFn : List ℚ → List ℚ → ℚ)
    (dbt : String → List DailyData) (t : Trade) (ht : t ∈ runBacktest corrFn dbt) :
    t.Return = (t.ExitPrice / t.EntryPrice - 1) - frictionCost := by
  simp only [runBacktest, List.mem_flatMap] at ht
  obtain ⟨i, -, hti⟩ := ht
  simp only [tradesForTrigger, List.mem_filterMap] at hti
  obtain ⟨cd, -, hcd⟩ := hti
  exact simulateTrade_some_return _ _ _ _ hcd

/-- Concrete asset series for the witnesses: 37 days aligned with
`sampleBench`, entry close 100 on day 31, exit close 105 on day 36. -/
def sampleAsset : List DailyData :=
  (List.range 37).map (fun n =>
    ⟨Nat.repr n, "600406.SS", if n = 31 then 100 else if n = 36 then 105 else 1⟩)

/-- The concrete price table for the witnesses: benchmark plus one pool
ticker with data, every other ticker absent (the Go map's nil default). -/
def sampleData : String → List DailyData :=
  fun t => if t = benchmarkTicker then sampleBench else
    if t = "600406.SS" then sampleAsset else []

set_option maxRecDepth 100000 in
/-- C5 witness: the spec's scenario C — entry 100, exit 105, friction
0.0015, recorded return 0.0485 — realised end to end by the pipeline. -/
theorem trade_return_formula_witness :
    (⟨"31", "36", "600406.SS", 100, 105, 97/2000⟩ : Trade).Return =
      ((⟨"31", "36", "600406.SS", 100, 105, 97/2000⟩ : Trade).ExitPrice /
          (⟨"31", "36", "600406.SS", 100, 105, 97/2000⟩ : Trade).EntryPrice - 1) -
        frictionCost :=
  trade_return_formula (fun _ _ => 0) sampleData _
    (of_decide_eq_true (by with_unfolding_all rfl))

/-- C6: a trade is only emitted when the trigger date is found in the asset
series and the exit index is strictly inside it; a missing date yields no
trade, and a skipped pick leaves the remaining picks untouched. -/
theorem trade_bounds_and_skip (dbt : String → List DailyData) (d tick : String) :
    (∀ t : Trade, simulateTrade dbt d tick = some t →
        findDateIndex (dbt tick) d ≠ -1 ∧
        (findDateIndex (dbt tick) d).toNat + holdingPeriod < (dbt tick).length)
    ∧ (findDateIndex (dbt tick) d = -1 → simulateTrade dbt d tick = none)
    ∧ (∀ (cd : CorrelationData) (picks : List CorrelationData),
        simulateTrade dbt d cd.ticker = none →
        tradesForTrigger dbt d (cd :: picks) = tradesForTrigger dbt d picks) := by
  refine ⟨?_, ?_, ?_⟩
  · intro t h
    simp only [simulateTrade] at h
    split_ifs at h with h1 h2
    exact ⟨h1, h2⟩
  · intro h
    simp only [simulateTrade, if_pos h]
  · intro cd picks h
    simp only [tradesForTrigger, List.filterMap_cons, h]

/-- Concrete six-day single-ticker table for the C6 witness. -/
def smallData : String → List DailyData := fun _ =>
  [⟨"a", "T", 10⟩, ⟨"b", "T", 11⟩, ⟨"c", "T", 12⟩, ⟨"d", "T", 13⟩, ⟨"e", "T", 14⟩, ⟨"f", "T", 21⟩]

set_option maxRecDepth 100000 in
/-- C6 witness: a trade that fits inside the series, a missing trigger date
skipped, and the skip leaving the remaining picks unchanged. -/
theorem trade_bounds_and_skip_witness :
    (findDateIndex (smallData "T") "a" ≠ -1 ∧
      (findDateIndex (smallData "T") "a").toNat + holdingPeriod < (smallData "T").length)
    ∧ simulateTrade smallData "zz" "T" = none
    ∧ tradesForTrigger smallData "zz" [⟨"T", 0⟩] = tradesForTrigger smallData "zz" [] :=
  ⟨(trade_bounds_and_skip smallData "a" "T").1 ⟨"a", "f", "T", 10, 21, 2197/2000⟩
      (of_decide_eq_true (by with_unfolding_all rfl)),
   (trade_bounds_and_skip smallData "zz" "T").2.1 (by decide),
   (trade_bounds_and_skip smallData "zz" "T").2.2 ⟨"T", 0⟩ []
      ((trade_bounds_and_skip smallData "zz" "T").2.1 (by decide))⟩

theorem mem_tradesForTrigger_entryDate (dbt : String → List DailyData) (d : String)
    (picks : List CorrelationData) (t : Trade) (h : t ∈ tradesForTrigger dbt d picks) :
    t.EntryDate = d := by
  simp only [tradesForTrigger, List.mem_filterMap] at h
  obtain ⟨cd, -, hcd⟩ := h
  simp only [simulateTrade] at hcd
  split_ifs at hcd
  rw [Option.some_inj] at hcd
  subst hcd
  rfl

/-- C1: a trigger fires at return index `i` exactly when the return exceeds
`triggerThreshold` times the trailing sample standard deviation (one-sided:
non-positive returns never fire), and every recorded trade is keyed to the
date of the benchmark *price* at index `i+1`. -/
theorem trigger_scan (benchData : List DailyData) (i : ℕ)
    (h1 : volatilityWindow ≤ i) (h2 : i < (getDailyReturns benchData).length) :
    (i ∈ triggerIndices (getDailyReturns benchData) ↔
      (triggerThreshold : ℝ) *
          Real.sqrt (sampleVariance (volWindowSlice (getDailyReturns benchData) i)) <
        (((getDailyReturns benchData).getD i 0 : ℚ) : ℝ))
    ∧ ((getDailyReturns benchData).getD i 0 ≤ 0 →
        i ∉ triggerIndices (getDailyReturns benchData))
    ∧ (∀ (corrFn : List ℚ → List ℚ → ℚ) (dbt : String → List DailyData) (t : Trade),
        dbt benchmarkTicker = benchData → t ∈ runBacktest corrFn dbt →
        ∃ j ∈ triggerIndices (getDailyReturns benchData),
          t.EntryDate = (benchData.getD (j + 1) default).Date) := by
  have key : i ∈ triggerIndices (getDailyReturns benchData) ↔
      triggerCond (getDailyReturns benchData) i := by
    simp only [triggerIndices, List.mem_filter, decide_eq_true_eq]
    constructor
    · exact fun h => h.2
    · intro h
      refine ⟨?_, h⟩
      rw [List.mem_range'_1]
      omega
  refine ⟨key, ?_, ?_⟩
  · intro hle hmem
    have hc := (triggerCond_iff _ _).mp (key.mp hmem)
    linarith [hc.1]
  · intro corrFn dbt t hdbt ht
    simp only [runBacktest, List.mem_flatMap, hdbt] at ht
    obtain ⟨j, hj, hmem⟩ := ht
    exact ⟨j, hj, mem_tradesForTrigger_entryDate _ _ _ _ hmem⟩

set_option maxRecDepth 100000 in
/-- C1 witness: on the concrete benchmark the flat day-20 return is not
positive, so no trigger fires there. -/
theorem trigger_scan_witness : 20 ∉ triggerIndices (getDailyReturns sampleBench) :=
  (trigger_scan sampleBench 20 (by decide) (by decide)).2.1
    (of_decide_eq_true (by with_unfolding_all rfl))

/-- The ordering the ranker sorts by: ascending correlation value. -/
def corrLE (a b : CorrelationData) : Prop := a.value ≤ b.value

instance (a b : CorrelationData) : Decidable (corrLE a b) :=
  inferInstanceAs (Decidable (a.value ≤ b.value))

/-- The ranking §4.3 of the spec describes, written from the spec's words:
sort the scored tickers ascending by value with a *stable* sort, so that
ties keep their original (pool) order; `List.mergeSort` is exactly such a
stable ascending sort. -/
def specStableSortAsc (l : List CorrelationData) : List CorrelationData :=
  l.mergeSort (fun a b => decide (a.value ≤ b.value))

theorem mem_goInsert (x a : CorrelationData) : ∀ (l : List CorrelationData),
    a ∈ goInsert x l ↔ a = x ∨ a ∈ l
  | [] => by simp [goInsert]
  | y :: ys => by
      by_cases hxy : x.value < y.value
      · simp [goInsert, if_pos hxy]
      · simp only [goInsert, if_neg hxy, List.mem_cons, mem_goInsert x a ys]
        tauto

theorem pairwise_goInsert (x : CorrelationData) : ∀ (l : List CorrelationData),
    l.Pairwise corrLE → (goInsert x l).Pairwise corrLE
  | [], _ => by simp [goInsert]
  | y :: ys, hp => by
      obtain ⟨hy, hys⟩ := List.pairwise_cons.mp hp
      by_cases hxy : x.value < y.value
      · simp only [goInsert, if_pos hxy]
        refine List.pairwise_cons.mpr ⟨?_, hp⟩
        intro z hz
        rcases List.mem_cons.mp hz with rfl | hz'
        · exact le_of_lt hxy
        · exact le_trans (le_of_lt hxy) (hy z hz')
      · simp only [goInsert, if_neg hxy]
        refine List.pairwise_cons.mpr ⟨?_, pairwise_goInsert x ys hys⟩
        intro z hz
        rcases (mem_goInsert x z ys).mp hz with rfl | hz'
        · exact not_lt.mp hxy
        · exact hy z hz'

theorem filter_goInsert (x : CorrelationData) (c : ℚ) : ∀ (l : List CorrelationData),
    l.Pairwise corrLE →
    (goInsert x l).filter (fun z => decide (z.value = c)) =
      l.filter (fun z => decide (z.value = c)) ++ if x.value = c then [x] else []
  | [], _ => by
      by_cases hxc : x.value = c
      · simp [goInsert, hxc]
      · simp [goInsert, hxc]
  | y :: ys, hp => by
      obtain ⟨hy, hys⟩ := List.pairwise_cons.mp hp
      by_cases hxy : x.value < y.value
      · simp only [goInsert, if_pos hxy]
        by_cases hxc : x.value = c
        · have hnil : (y :: ys).filter (fun z => decide (z.value = c)) = [] := by
            rw [List.filter_eq_nil_iff]
            intro z hz
            have hyz : y.value ≤ z.value := by
              rcases List.mem_cons.mp hz with rfl | hz'
              · exact le_refl _
              · exact hy z hz'
            simp only [decide_eq_true_eq]
            intro hzc
            rw [hzc, ← hxc] at hyz
            exact absurd hxy (not_lt.mpr hyz)
          rw [List.filter_cons_of_pos (by simp [hxc]), hnil, if_pos hxc, List.nil_append]
        · rw [List.filter_cons_of_neg (by simp [hxc]), if_neg hxc, List.append_nil]
      · simp only [goInsert, if_neg hxy]
        have ih := filter_goInsert x c ys hys
        by_cases hyc : y.value = c
        · rw [List.filter_cons_of_pos (by simp [hyc]), List.filter_cons_of_pos (by simp [hyc]),
            ih, List.cons_append]
        · rw [List.filter_cons_of_neg (by simp [hyc]), List.filter_cons_of_neg (by simp [hyc]), ih]

theorem pairwise_goSortAux : ∀ (l acc : List CorrelationData),
    acc.Pairwise corrLE → (goSortAux acc l).Pairwise corrLE
  | [], _, h => h
  | x :: xs, acc, h => pairwise_goSortAux xs _ (pairwise_goInsert x acc h)

theorem filter_goSortAux (c : ℚ) : ∀ (l acc : List CorrelationData), acc.Pairwise corrLE →
    (goSortAux acc l).filter (fun z => decide (z.value = c)) =
      acc.filter (fun z => decide (z.value = c)) ++ l.filter (fun z => decide (z.value = c))
  | [], acc, _ => by simp [goSortAux]
  | x :: xs, acc, h => by
      have ih := filter_goSortAux c xs (goInsert x acc) (pairwise_goInsert x acc h)
      simp only [goSortAux]
      rw [ih, filter_goInsert x c acc h, List.append_assoc]
      congr 1
      by_cases hxc : x.value = c
      · rw [if_pos hxc, List.filter_cons_of_pos (by simp [hxc]), List.singleton_append]
      · rw [if_neg hxc, List.filter_cons_of_neg (by simp [hxc]), List.nil_append]

theorem pairwise_goSort (l : List CorrelationData) :
    (goSortCorrelations l).Pairwise corrLE :=
  pairwise_goSortAux l [] List.Pairwise.nil

theorem filter_goSort (l : List CorrelationData) (c : ℚ) :
    (goSortCorrelations l).filter (fun z => decide (z.value = c)) =
      l.filter (fun z => decide (z.value = c)) := by
  have h := filter_goSortAux c l [] List.Pairwise.nil
  simpa [goSortCorrelations] using h


theorem corrLEb_trans (a b c : CorrelationData) :
    decide (a.value ≤ b.value) → decide (b.value ≤ c.value) → decide (a.value ≤ c.value) := by
  simp only [decide_eq_true_eq]
  exact le_trans

theorem corrLEb_total (a b : CorrelationData) :
    decide (a.value ≤ b.value) || decide (b.value ≤ a.value) := by
  simpa using le_total a.value b.value

theorem pairwise_specSort (l : List CorrelationData) :
    (specStableSortAsc l).Pairwise corrLE := by
  have h := List.sorted_mergeSort corrLEb_trans corrLEb_total l
  exact h.imp (fun hab => by simpa [corrLE] using hab)

theorem filter_specSort (l : List CorrelationData) (c : ℚ) :
    (specStableSortAsc l).filter (fun z => decide (z.value = c)) =
      l.filter (fun z => decide (z.value = c)) := by
  set p : CorrelationData → Bool := fun z => decide (z.value = c) with hp
  have hsub : List.Sublist (l.filter p) l := List.filter_sublist l
  have hpw : (l.filter p).Pairwise (fun a b => decide (a.value ≤ b.value) = true) := by
    apply List.pairwise_of_forall_mem_list
    intro a ha b hb
    have ha' : a.value = c := by simpa [hp] using (List.mem_filter.mp ha).2
    have hb' : b.value = c := by simpa [hp] using (List.mem_filter.mp hb).2
    simp [ha', hb']
  have hstable : List.Sublist (l.filter p) (specStableSortAsc l) :=
    List.sublist_mergeSort corrLEb_trans corrLEb_total hpw hsub
  have hself : (l.filter p).filter p = l.filter p :=
    List.filter_eq_self.mpr (fun a ha => (List.mem_filter.mp ha).2)
  have h2 : List.Sublist (l.filter p) ((specStableSortAsc l).filter p) := by
    have h3 := hstable.filter p
    rwa [hself] at h3
  have hlen : ((specStableSortAsc l).filter p).length = (l.filter p).length :=
    ((List.mergeSort_perm l _).filter p).length_eq
  exact (h2.eq_of_length hlen.symm).symm

theorem eq_of_pairwise_filter : ∀ (s t : List CorrelationData),
    s.Pairwise corrLE → t.Pairwise corrLE →
    (∀ c : ℚ, s.filter (fun z => decide (z.value = c)) =
      t.filter (fun z => decide (z.value = c))) →
    s = t
  | [], [], _, _, _ => rfl
  | [], y :: t₂, _, _, hf => by
      have h := hf y.value
      rw [List.filter_nil, List.filter_cons_of_pos (by simp)] at h
      exact absurd h.symm (List.cons_ne_nil _ _)
  | x :: t₁, [], _, _, hf => by
      have h := hf x.value
      rw [List.filter_nil, List.filter_cons_of_pos (by simp)] at h
      exact absurd h (List.cons_ne_nil _ _)
  | x :: t₁, y :: t₂, h₁, h₂, hf => by
      obtain ⟨hx, ht₁⟩ := List.pairwise_cons.mp h₁
      obtain ⟨hy, ht₂⟩ := List.pairwise_cons.mp h₂
      have hxy : x.value = y.value := by
        have hxr : x ∈ y :: t₂ := by
          have h := hf x.value
          have hm : x ∈ (x :: t₁).filter (fun z => decide (z.value = x.value)) :=
            List.mem_filter.mpr ⟨List.mem_cons_self _ _, by simp⟩
          rw [h] at hm
          exact (List.mem_filter.mp hm).1
        have hyl : y ∈ x :: t₁ := by
          have h := hf y.value
          have hm : y ∈ (y :: t₂).filter (fun z => decide (z.value = y.value)) :=
            List.mem_filter.mpr ⟨List.mem_cons_self _ _, by simp⟩
          rw [← h] at hm
          exact (List.mem_filter.mp hm).1
        have h1 : y.value ≤ x.value := by
          rcases List.mem_cons.mp hxr with rfl | hmem
          · exact le_refl _
          · exact hy x hmem
        have h2 : x.value ≤ y.value := by
          rcases List.mem_cons.mp hyl with rfl | hmem
          · exact le_refl _
          · exact hx y hmem
        exact le_antisymm h2 h1
      have hhead := hf x.value
      rw [List.filter_cons_of_pos (by simp),
        List.filter_cons_of_pos (by simp only [decide_eq_true_eq]; exact hxy.symm)] at hhead
      injection hhead with hxeqy htailx
      have htail : ∀ c : ℚ, t₁.filter (fun z => decide (z.value = c)) =
          t₂.filter (fun z => decide (z.value = c)) := by
        intro c
        by_cases hc : x.value = c
        · rw [← hc]; exact htailx
        · have h := hf c
          rw [List.filter_cons_of_neg (by simp only [decide_eq_true_eq]; exact hc),
            List.filter_cons_of_neg (by
              simp only [decide_eq_true_eq, ← hxy]; exact hc)] at h
          exact h
      rw [hxeqy, eq_of_pairwise_filter t₁ t₂ ht₁ ht₂ htail]

/-- The Go sort agrees with the spec's stable ascending sort. -/
theorem goSort_eq_specSort (l : List CorrelationData) :
    goSortCorrelations l = specStableSortAsc l :=
  eq_of_pairwise_filter _ _ (pairwise_goSort l) (pairwise_specSort l)
    (fun c => by rw [filter_goSort, filter_specSort])

/-- C3: the executed selection is the first `numAssetsToPick` entries of the
spec's stable ascending sort (lowest values first, ties in pool order), and
when fewer tickers are ranked than `numAssetsToPick` all of them are kept. -/
theorem asset_selection_correct (l : List CorrelationData) :
    (goSortCorrelations l).take numAssetsToPick = (specStableSortAsc l).take numAssetsToPick
    ∧ (goSortCorrelations l).Pairwise corrLE
    ∧ (∀ c : ℚ, (goSortCorrelations l).filter (fun z => decide (z.value = c)) =
        l.filter (fun z => decide (z.value = c)))
    ∧ (l.length ≤ numAssetsToPick →
        List.Perm ((goSortCorrelations l).take numAssetsToPick) l) := by
  refine ⟨by rw [goSort_eq_specSort], pairwise_goSort l, filter_goSort l, ?_⟩
  intro hlen
  rw [goSort_eq_specSort, List.take_of_length_le (by simpa [specStableSortAsc] using hlen)]
  exact List.mergeSort_perm l _

/-- C3 witness: a single scored ticker, fewer than `numAssetsToPick`. -/
theorem asset_selection_correct_witness :
    List.Perm ((goSortCorrelations [⟨"600406.SS", 1⟩]).take numAssetsToPick) [⟨"600406.SS", 1⟩] :=
  (asset_selection_correct [⟨"600406.SS", 1⟩]).2.2.2 (by decide)


theorem getD_of_lt (data : List DailyData) (j : ℕ) (hj : j < data.length) :
    data.getD j default = data[j] := by
  simp [List.getD_eq_getElem?_getD, List.getElem?_eq_getElem hj]

theorem findDateIndex_spec (data : List DailyData) (s : String)
    (h : findDateIndex data s ≠ -1) :
    (findDateIndex data s).toNat < data.length ∧
      (data.getD (findDateIndex data s).toNat default).Date = s := by
  unfold findDateIndex at h ⊢
  cases hidx : data.findIdx? (fun d => d.Date = s) with
  | none => rw [hidx] at h; exact absurd rfl h
  | some i =>
      obtain ⟨hlt, hp, -⟩ := List.findIdx?_eq_some_iff_getElem.mp hidx
      have hred : (match some i with | some j => (j : Int) | none => (-1 : Int)) = (i : Int) := rfl
      rw [hred]
      have htoNat : ((i : ℕ) : Int).toNat = i := by omega
      rw [htoNat]
      refine ⟨hlt, ?_⟩
      rw [getD_of_lt data i hlt]
      simpa using hp

theorem findDateIndex_getD (data : List DailyData) (hnd : (data.map DailyData.Date).Nodup)
    (j : ℕ) (hj : j < data.length) :
    findDateIndex data ((data.getD j default).Date) = (j : Int) := by
  unfold findDateIndex
  have hfind : data.findIdx? (fun x => x.Date = (data.getD j default).Date) = some j := by
    rw [List.findIdx?_eq_some_iff_getElem]
    refine ⟨hj, by simp [List.getElem?_eq_getElem hj], ?_⟩
    intro k hk
    simp only [getD_of_lt data j hj, decide_eq_true_eq, Bool.not_eq_true]
    intro hcontra
    have hk2 : k < (data.map DailyData.Date).length := by simpa using lt_trans hk hj
    have hj2 : j < (data.map DailyData.Date).length := by simpa using hj
    have hmap : (data.map DailyData.Date).get ⟨k, hk2⟩ =
        (data.map DailyData.Date).get ⟨j, hj2⟩ := by
      simpa [List.getElem_map] using hcontra
    have hkj : (⟨k, hk2⟩ : Fin (data.map DailyData.Date).length) = ⟨j, hj2⟩ :=
      (List.Nodup.get_inj_iff hnd).mp hmap
    have hkj2 : k = j := congrArg Fin.val hkj
    omega
  rw [hfind]

theorem benchSlice_length (bench : List DailyData) (d : String)
    (hnd : (bench.map DailyData.Date).Nodup)
    (hidx : ¬ findDateIndex bench d < (correlationWindow : Int)) :
    (getPriceSlice bench
        ((bench.getD ((findDateIndex bench d).toNat - correlationWindow) default).Date)
        d).length = correlationWindow + 1 := by
  have hcw : correlationWindow = 30 := rfl
  have hne : findDateIndex bench d ≠ -1 := by
    rw [hcw] at hidx
    omega
  obtain ⟨hlt, hdate⟩ := findDateIndex_spec bench d hne
  set tIdx := findDateIndex bench d with htdef
  set n := tIdx.toNat with hn
  have hn30 : 30 ≤ n := by rw [hcw] at hidx; omega
  have htIdxEq : tIdx = (n : Int) := by omega
  have hjlt : n - correlationWindow < bench.length := by rw [hcw]; omega
  have hstart := findDateIndex_getD bench hnd (n - correlationWindow) hjlt
  have hendEq : findDateIndex bench ((bench.getD (n - correlationWindow) default).Date) =
      ((n - correlationWindow : ℕ) : Int) := hstart
  rw [getPriceSlice]
  rw [hendEq, ← htdef, htIdxEq]
  rw [if_pos ⟨by omega, by omega, by exact_mod_cast Nat.sub_le n correlationWindow⟩]
  simp only [Int.toNat_natCast, List.length_take, List.length_drop]
  rw [hcw] at *
  omega

/-- C9: when the trigger date sits fewer than `correlationWindow` positions
into the benchmark series the ranking is empty; and (for duplicate-free
date series) every ranked ticker has at least `correlationWindow` return
observations over the window, exactly as many as the benchmark window. -/
theorem correlation_ranking_guards (corrFn : List ℚ → List ℚ → ℚ) (d : String)
    (dbt : String → List DailyData) (bench : List DailyData) :
    (findDateIndex bench d < (correlationWindow : Int) →
      calculateCorrelations corrFn d dbt bench = [])
    ∧ ((bench.map DailyData.Date).Nodup →
        ∀ cd ∈ calculateCorrelations corrFn d dbt bench,
          (correlationWindow : ℕ) ≤ (getDailyReturns (getPriceSlice (dbt cd.ticker)
              ((bench.getD ((findDateIndex bench d).toNat - correlationWindow) default).Date)
              d)).length
          ∧ (getDailyReturns (getPriceSlice (dbt cd.ticker)
              ((bench.getD ((findDateIndex bench d).toNat - correlationWindow) default).Date)
              d)).length =
            (getDailyReturns (getPriceSlice bench
              ((bench.getD ((findDateIndex bench d).toNat - correlationWindow) default).Date)
              d)).length) := by
  constructor
  · intro h
    simp only [calculateCorrelations, if_pos h]
  · intro hnd cd hcd
    by_cases hidx : findDateIndex bench d < (correlationWindow : Int)
    · simp only [calculateCorrelations, if_pos hidx] at hcd
      exact absurd hcd (List.not_mem_nil cd)
    · have hbench : (getDailyReturns (getPriceSlice bench
          ((bench.getD ((findDateIndex bench d).toNat - correlationWindow) default).Date)
          d)).length = correlationWindow := by
        rw [getDailyReturns_length, benchSlice_length bench d hnd hidx]
        omega
      simp only [calculateCorrelations, if_neg hidx] at hcd
      obtain ⟨tick, htick, heq⟩ := List.mem_filterMap.mp hcd
      split_ifs at heq with hlen1 hlen2
      rw [Option.some_inj] at heq
      subst heq
      exact ⟨by rw [hlen2, hbench], by rw [hlen2]⟩

set_option maxRecDepth 100000 in
/-- C9 witness: the concrete pipeline's single ranked ticker has exactly the
benchmark's 30 window returns. -/
theorem correlation_ranking_guards_witness :
    (correlationWindow : ℕ) ≤ (getDailyReturns (getPriceSlice (sampleData "600406.SS")
        ((sampleBench.getD ((findDateIndex sampleBench "31").toNat - correlationWindow)
          default).Date) "31")).length
    ∧ (getDailyReturns (getPriceSlice (sampleData "600406.SS")
        ((sampleBench.getD ((findDateIndex sampleBench "31").toNat - correlationWindow)
          default).Date) "31")).length =
      (getDailyReturns (getPriceSlice sampleBench
        ((sampleBench.getD ((findDateIndex sampleBench "31").toNat - correlationWindow)
          default).Date) "31")).length :=
  (correlation_ranking_guards (fun _ _ => 0) "31" sampleData sampleBench).2
    (by decide) ⟨"600406.SS", 0⟩ (by decide)

/-- Concrete constant-price pool ticker: 32 days, every close 7, so all its
window returns are 0 (zero variance). -/
def cexAsset : List DailyData :=
  (List.range 32).map (fun n => ⟨Nat.repr n, "002028.SZ", 7⟩)

/-- Price table pairing the live benchmark with the constant ticker. -/
def cexData : String → List DailyData :=
  fun t => if t = benchmarkTicker then sampleBench else
    if t = "002028.SZ" then cexAsset else []

set_option maxRecDepth 100000 in
/-- C4 counterexample: a ticker whose window returns are constant (sample
variance 0) is *not* excluded — it appears in the ranking. -/
theorem zero_variance_ticker_ranked_cex :
    "002028.SZ" ∈ (calculateCorrelations (fun _ _ => 0) "31" cexData sampleBench).map
        CorrelationData.ticker
    ∧ sampleVariance (getDailyReturns (getPriceSlice (cexData "002028.SZ")
        ((sampleBench.getD ((findDateIndex sampleBench "31").toNat - correlationWindow)
          default).Date) "31")) = 0 :=
  ⟨by decide, of_decide_eq_true (by with_unfolding_all rfl)⟩

/-- C4 (amended): `calculateCorrelations` applies no zero-variance guard.
Any pool ticker whose window slice is long enough and whose return count
matches the benchmark's is ranked, constant returns or not; the library's
correlation value (`NaN` in Go for degenerate input) enters the list. -/
theorem zero_variance_not_excluded (corrFn : List ℚ → List ℚ → ℚ) (d : String)
    (dbt : String → List DailyData) (bench : List DailyData) (tick : String)
    (hpool : tick ∈ assetPool)
    (hidx : ¬ findDateIndex bench d < (correlationWindow : Int))
    (hlen : ¬ (getPriceSlice (dbt tick)
        ((bench.getD ((findDateIndex bench d).toNat - correlationWindow) default).Date)
        d).length < correlationWindow)
    (heq : (getDailyReturns (getPriceSlice (dbt tick)
        ((bench.getD ((findDateIndex bench d).toNat - correlationWindow) default).Date)
        d)).length =
      (getDailyReturns (getPriceSlice bench
        ((bench.getD ((findDateIndex bench d).toNat - correlationWindow) default).Date)
        d)).length) :
    tick ∈ (calculateCorrelations corrFn d dbt bench).map CorrelationData.ticker := by
  simp only [calculateCorrelations, if_neg hidx]
  rw [List.mem_map]
  refine ⟨⟨tick, corrFn
    (getDailyReturns (getPriceSlice (dbt tick)
      ((bench.getD ((findDateIndex bench d).toNat - correlationWindow) default).Date) d))
    (getDailyReturns (getPriceSlice bench
      ((bench.getD ((findDateIndex bench d).toNat - correlationWindow) default).Date) d))⟩,
    ?_, rfl⟩
  apply List.mem_filterMap.mpr
  refine ⟨tick, hpool, ?_⟩
  rw [if_neg hlen, if_pos heq]

/-- C4 witness (for the amended claim): the constant-return ticker is ranked
on the concrete data. -/
theorem zero_variance_not_excluded_witness :
    "002028.SZ" ∈ (calculateCorrelations (fun _ _ => 0) "31" cexData sampleBench).map
        CorrelationData.ticker :=
  zero_variance_not_excluded (fun _ _ => 0) "31" cexData sampleBench "002028.SZ"
    (by decide) (by decide) (by decide) (by decide)
